import Mathlib

/-!
# Verification of the LSIF JSON store against its specification

This file is a shallow embedding, in Lean 4, of `src/server/src/jsonStore.ts`
of the vscode-lsif-extension repository: the in-memory graph database that
ingests a line-delimited JSON export of a code-intelligence index and answers
code-navigation queries.

Modelling conventions, fixed once here:

* JavaScript `Map` objects become association lists (`List (κ × β)`) with
  `mapGet` returning the most recently `mapSet` binding, which coincides with
  `Map.get`/`Map.set` observationally (we never iterate a map).
* Ids (`number | string` in the protocol) are modelled as `Nat`; the code
  treats them as opaque keys compared with `===`.
* The external `crypto.createHash('md5')` digest is an opaque parameter
  `h : String → String` threaded through ingestion; nothing in the store
  depends on any property of the digest beyond being a function.
* The host-layer URI transformer (`toDatabase`/`fromDatabase`, declared in
  `database.ts`, outside the analysed core and declared an out-of-scope
  collaborator by the specification) is modelled as the identity.
* Potentially non-terminating loops in the source (`do { … } while (true)`
  and the recursive reference expansion) are modelled with an explicit fuel
  parameter; `none` means the computation did not finish within the given
  fuel (or hit a dynamic `undefined`-dereference crash, each such place is
  marked), `some` is the value the JavaScript code returns.
* Unchecked TypeScript casts (`target as DocumentSymbolResult` and similar)
  are modelled by storing the raw `Vertex` and projecting at use sites; where
  the JavaScript code would dereference a property that is `undefined` the
  model takes a marked crash/`none` branch.
-/

namespace Lsif

/-! ## Basic protocol data types -/

abbrev Id := Nat

structure Pos where
  line : Nat
  character : Nat
deriving DecidableEq

structure LspRange where
  start : Pos
  end_ : Pos
deriving DecidableEq

/-- Tag types on a range vertex; only `declaration` and `definition` matter
to `toDocumentSymbol`, everything else is collapsed into `otherTag`. -/
inductive TagType where
  | declaration
  | definition
  | otherTag
deriving DecidableEq

structure Tag where
  type : TagType
  text : String
  detail : Option String
  kind : Nat
  fullRange : LspRange
deriving DecidableEq

/-- An lsp.DocumentSymbol as produced by `lsp.DocumentSymbol.create`:
`children` is `none` when the property was never assigned. -/
inductive DocumentSymbol where
  | mk (name : String) (detail : String) (kind : Nat)
       (range : LspRange) (selectionRange : LspRange)
       (children : Option (List DocumentSymbol))

/-- A RangeBasedDocumentSymbol: an id plus children. The source checks
`value.children && value.children.length > 0`, treating an absent list and an
empty list identically, so children are modelled as a plain list. -/
inductive RangeBasedDocumentSymbol where
  | mk (id : Id) (children : List RangeBasedDocumentSymbol)

def RangeBasedDocumentSymbol.id : RangeBasedDocumentSymbol → Id
  | .mk i _ => i

def RangeBasedDocumentSymbol.children :
    RangeBasedDocumentSymbol → List RangeBasedDocumentSymbol
  | .mk _ c => c

/-- Payload of a DocumentSymbolResult vertex: the protocol type is
`lsp.DocumentSymbol[] | RangeBasedDocumentSymbol[]`. -/
inductive DocSymResult where
  | full (l : List DocumentSymbol)
  | rangeBased (l : List RangeBasedDocumentSymbol)

def DocSymResult.length : DocSymResult → Nat
  | .full l => l.length
  | .rangeBased l => l.length

inductive MonikerKind where
  | localKind
  | importKind
  | exportKind
deriving DecidableEq

inductive EventScope where
  | groupScope
  | projectScope
  | otherScope
deriving DecidableEq

inductive EventKind where
  | beginKind
  | endKind
deriving DecidableEq

/-- Vertices of the LSIF graph, with exactly the payload fields the store
reads. `moniker`'s `key` field models the `key` property the store assigns to
non-local monikers during ingestion (`undefined`, i.e. `none`, on parse). -/
inductive Vertex where
  | metaData (id : Id) (version : String)
  | group (id : Id) (rootUri : Option String)
  | project (id : Id)
  | event (id : Id) (scope : EventScope) (kind : EventKind) (data : Id)
  | document (id : Id) (uri : String) (contents : Option String)
  | moniker (id : Id) (scheme : String) (identifier : String)
            (kind : MonikerKind) (key : Option String)
  | range (id : Id) (span : LspRange) (tag : Option Tag)
  | resultSet (id : Id)
  | documentSymbolResult (id : Id) (result : DocSymResult)
  | foldingRangeResult (id : Id)
  | declarationResult (id : Id)
  | definitionResult (id : Id)
  | referenceResult (id : Id)
  | hoverResult (id : Id) (contents : String) (range : Option LspRange)
  | otherVertex (id : Id)

def Vertex.id : Vertex → Id
  | .metaData i _ => i
  | .group i _ => i
  | .project i => i
  | .event i _ _ _ => i
  | .document i _ _ => i
  | .moniker i _ _ _ _ => i
  | .range i _ _ => i
  | .resultSet i => i
  | .documentSymbolResult i _ => i
  | .foldingRangeResult i => i
  | .declarationResult i => i
  | .definitionResult i => i
  | .referenceResult i => i
  | .hoverResult i _ _ => i
  | .otherVertex i => i

/-- Reading `.key` off a value cast `as Moniker`: `undefined` (`none`) unless
the vertex is a moniker carrying a key. -/
def Vertex.monikerKey : Vertex → Option String
  | .moniker _ _ _ _ key => key
  | _ => none

/-- Reading `.tag` off a value treated as a Range vertex: `undefined`
(`none`) unless it is a range with a tag. -/
def Vertex.tagOf : Vertex → Option Tag
  | .range _ _ tag => tag
  | _ => none

/-- Database.asRange of a vertex treated as a Range: its span, with a dummy
zero range where the JavaScript code would read `undefined` fields. -/
def Vertex.spanD : Vertex → LspRange
  | .range _ span _ => span
  | _ => ⟨⟨0, 0⟩, ⟨0, 0⟩⟩

/-- Reading `.uri` off a vertex cast `as Document`: dummy empty string where
the JavaScript code would read `undefined`. -/
def Vertex.uriD : Vertex → String
  | .document _ uri _ => uri
  | _ => ""

/-! ## Edge data types -/

inductive ItemEdgeProperties where
  | declarations
  | definitions
  | references
  | referenceResults
  | referenceLinks
deriving DecidableEq

/-- ItemTarget exactly as in the source: an untyped item edge stores the
target directly (`plain`), a typed one wraps it with its property. -/
inductive ItemTarget where
  | plain (range : Vertex)
  | declarations (range : Vertex)
  | definitions (range : Vertex)
  | references (range : Vertex)
  | referenceResults (result : Vertex)
  | referenceLinks (result : Vertex)

inductive EdgeLabel where
  | contains
  | item (property : Option ItemEdgeProperties)
  | next
  | moniker
  | textDocument_documentSymbol
  | textDocument_foldingRange
  | textDocument_documentLink
  | textDocument_diagnostic
  | textDocument_definition
  | textDocument_typeDefinition
  | textDocument_hover
  | textDocument_references
  | otherEdge
deriving DecidableEq

/-- Edge targets: `Edge.is11` edges carry a single `inV`, `Edge.is1N` edges
carry an `inVs` array. -/
inductive InV where
  | one (inV : Id)
  | many (inVs : List Id)
deriving DecidableEq

structure EdgeRec where
  label : EdgeLabel
  outV : Id
  targets : InV
deriving DecidableEq

def EdgeRec.inVsList (e : EdgeRec) : List Id :=
  match e.targets with
  | .one i => [i]
  | .many l => l

/-! ## Association-list maps (JavaScript `Map` semantics for get/set) -/

def mapGet {κ β : Type} [DecidableEq κ] : List (κ × β) → κ → Option β
  | [], _ => none
  | (k, v) :: rest, key => if k = key then some v else mapGet rest key

def mapSet {κ β : Type} (m : List (κ × β)) (k : κ) (v : β) : List (κ × β) :=
  (k, v) :: m

/-! ## The store -/

structure DocumentsBucket where
  hash : String
  documents : List Vertex

/-- The JsonStore state: `vertices`, `indices`, `out` and `in` of the class,
flattened into one structure. -/
structure Store where
  version : Option String := none
  projectRoot : Option String := none
  activeGroup : Option Id := none
  activeProject : Option Id := none
  all : List (Id × Vertex) := []
  projects : List (Id × Vertex) := []
  documents : List (Id × Vertex) := []
  ranges : List (Id × Vertex) := []
  idx_monikers : List (String × List Vertex) := []
  idx_contents : List (String × String) := []
  idx_documents : List (String × DocumentsBucket) := []
  out_contains : List (Id × List Vertex) := []
  out_item : List (Id × List ItemTarget) := []
  out_next : List (Id × Vertex) := []
  out_moniker : List (Id × Vertex) := []
  out_documentSymbol : List (Id × Vertex) := []
  out_foldingRange : List (Id × Vertex) := []
  out_documentLink : List (Id × Vertex) := []
  out_diagnostic : List (Id × Vertex) := []
  out_declaration : List (Id × Vertex) := []
  out_definition : List (Id × Vertex) := []
  out_typeDefinition : List (Id × Vertex) := []
  out_hover : List (Id × Vertex) := []
  out_references : List (Id × Vertex) := []
  in_contains : List (Id × Vertex) := []
  in_previous : List (Id × Vertex) := []
  in_moniker : List (Id × Vertex) := []

def emptyStore : Store := {}

/-! ## Vertex processing -/

/-- JSON.stringify of the object literal the source hashes for a moniker key
(string escaping of exotic characters in scheme/identifier elided). -/
def monikerStringify (scheme identifier : String) : String :=
  "\x7b\"s\":\"" ++ scheme ++ "\",\"i\":\"" ++ identifier ++ "\"\x7d"

def withAll (s : Store) (v : Vertex) : Store :=
  { s with all := mapSet s.all v.id v }

/-- doProcessDocument: register the document vertex, hash its contents (or
the sentinel text), register the content, and create or extend the per-URI
bucket. A hash mismatch against an existing bucket only logs (the log call is
not modelled); the bucket's hash is left unchanged. -/
def doProcessDocument (h : String → String) (s : Store)
    (id : Id) (uri : String) (contents? : Option String) : Store :=
  let contents := contents?.getD "No content provided."
  let s := { s with documents := mapSet s.documents id (.document id uri contents?) }
  let hash := h contents
  let s := { s with idx_contents := mapSet s.idx_contents hash contents }
  let bucket := (mapGet s.idx_documents uri).getD ⟨hash, []⟩
  let bucket2 := DocumentsBucket.mk bucket.hash (bucket.documents ++ [.document id uri contents?])
  { s with idx_documents := mapSet s.idx_documents uri bucket2 }

/-- processVertex. The `vertices.all.set` in the source happens before the
switch, but the moniker case then mutates the stored object in place by
assigning `key`; functionally the keyed moniker ends up in `all`. -/
def processVertex (h : String → String) (s : Store) (v : Vertex) : Store :=
  match v with
  | .metaData _ version => { withAll s v with version := some version }
  | .group _ rootUri =>
      match rootUri with
      | some uri => { withAll s v with projectRoot := some uri }
      | none => withAll s v
  | .project id =>
      let s := withAll s v
      { s with projects := mapSet s.projects id v }
  | .event _ scope kind data =>
      let s := withAll s v
      match kind with
      | .beginKind =>
          match scope with
          | .groupScope => { s with activeGroup := some data }
          | .projectScope => { s with activeProject := some data }
          | .otherScope => s
      | .endKind => s
  | .document id uri contents? => doProcessDocument h (withAll s v) id uri contents?
  | .moniker id scheme identifier kind _ =>
      match kind with
      | .localKind => withAll s v
      | _ =>
          let key := h (monikerStringify scheme identifier)
          let keyed := Vertex.moniker id scheme identifier kind (some key)
          let s := { s with all := mapSet s.all id keyed }
          let values := (mapGet s.idx_monikers key).getD []
          { s with idx_monikers := mapSet s.idx_monikers key (values ++ [keyed]) }
  | .range id _ _ =>
      let s := withAll s v
      { s with ranges := mapSet s.ranges id v }
  | _ => withAll s v

/-! ## Edge processing -/

/-- doProcessEdge: both endpoints must already be in `vertices.all`,
otherwise the thrown `No vertex found for Id …` error is modelled as
`Except.error`. -/
def doProcessEdge (s : Store) (label : EdgeLabel) (outV inV : Id) :
    Except String Store :=
  match mapGet s.all outV with
  | none => .error ("No vertex found for Id " ++ toString outV)
  | some fromV =>
    match mapGet s.all inV with
    | none => .error ("No vertex found for Id " ++ toString inV)
    | some toV =>
      .ok (match label with
        | .contains =>
            let values := (mapGet s.out_contains fromV.id).getD []
            let s := { s with out_contains := mapSet s.out_contains fromV.id (values ++ [toV]) }
            { s with in_contains := mapSet s.in_contains toV.id fromV }
        | .item property =>
            let itemTarget : ItemTarget :=
              match property with
              | some .references => .references toV
              | some .declarations => .declarations toV
              | some .definitions => .definitions toV
              | some .referenceResults => .referenceResults toV
              | some .referenceLinks => .referenceLinks toV
              | none => .plain toV
            let values := (mapGet s.out_item fromV.id).getD []
            { s with out_item := mapSet s.out_item fromV.id (values ++ [itemTarget]) }
        | .next =>
            let s := { s with out_next := mapSet s.out_next fromV.id toV }
            { s with in_previous := mapSet s.in_previous toV.id fromV }
        | .moniker =>
            let s := { s with out_moniker := mapSet s.out_moniker fromV.id toV }
            { s with in_moniker := mapSet s.in_moniker toV.id fromV }
        | .textDocument_documentSymbol =>
            { s with out_documentSymbol := mapSet s.out_documentSymbol fromV.id toV }
        | .textDocument_foldingRange =>
            { s with out_foldingRange := mapSet s.out_foldingRange fromV.id toV }
        | .textDocument_documentLink =>
            { s with out_documentLink := mapSet s.out_documentLink fromV.id toV }
        | .textDocument_diagnostic =>
            { s with out_diagnostic := mapSet s.out_diagnostic fromV.id toV }
        | .textDocument_definition =>
            { s with out_definition := mapSet s.out_definition fromV.id toV }
        | .textDocument_typeDefinition =>
            { s with out_typeDefinition := mapSet s.out_typeDefinition fromV.id toV }
        | .textDocument_hover =>
            { s with out_hover := mapSet s.out_hover fromV.id toV }
        | .textDocument_references =>
            { s with out_references := mapSet s.out_references fromV.id toV }
        | .otherEdge => s)

/-- processEdge: a 1:N edge is applied as an ordered sequence of single
applications, stopping at the first error. -/
def processEdge (s : Store) (e : EdgeRec) : Except String Store :=
  match e.targets with
  | .one inV => doProcessEdge s e.label e.outV inV
  | .many inVs => inVs.foldlM (fun acc inV => doProcessEdge acc e.label e.outV inV) s

/-! ## The ingestion pipeline -/

/-- One input line, after the external line splitting and `JSON.parse`:
`blank` is the empty line (skipped before parsing), `malformed` is a line on
which `JSON.parse` throws, `otherLine` is valid JSON whose `type` field is
neither `vertex` nor `edge` (the switch in `load` has no default case). -/
inductive Line where
  | blank
  | malformed (msg : String)
  | vertexLine (v : Vertex)
  | edgeLine (e : EdgeRec)
  | otherLine

def processLine (h : String → String) (s : Store) : Line → Except String Store
  | .blank => .ok s
  | .malformed msg => .error msg
  | .vertexLine v => .ok (processVertex h s v)
  | .edgeLine e => processEdge s e
  | .otherLine => .ok s

def loadLines (h : String → String) (s : Store) (lines : List Line) :
    Except String Store :=
  lines.foldlM (processLine h) s

/-! ## Semantic versions

Modelled from the spec: the `semver` npm package is an external dependency
(not part of the analysed sources). Parsing and precedence follow the
semantic-versioning standard the spec's version gate appeals to
(`>0.4.99 <=0.5.0-next.2` "inclusive of pre-release tags"): a pre-release
identifier list is compared identifier by identifier, numeric identifiers
numerically and below alphanumeric ones, and a version with a pre-release
list precedes the same three-part version without one. -/

inductive PreId where
  | num (n : Nat)
  | str (s : List Char)
deriving DecidableEq

structure SemVerV where
  major : Nat
  minor : Nat
  patch : Nat
  prerelease : List PreId
deriving DecidableEq

/-- Split a character list on every occurrence of `c` (like `splitOn`). -/
def splitOnChar (c : Char) : List Char → List (List Char)
  | [] => [[]]
  | x :: xs =>
    let r := splitOnChar c xs
    if x = c then [] :: r
    else
      match r with
      | [] => [[x]]
      | g :: gs => (x :: g) :: gs

/-- Split a character list at the first occurrence of `c`: the part before
it, and the part after it when it occurs. -/
def breakAtChar (c : Char) : List Char → List Char × Option (List Char)
  | [] => ([], none)
  | x :: xs =>
    if x = c then ([], some xs)
    else
      let r := breakAtChar c xs
      (x :: r.1, r.2)

def parseNatChars? (l : List Char) : Option Nat :=
  if l.isEmpty then none
  else if l.all Char.isDigit then
    some (l.foldl (fun acc c => acc * 10 + (c.toNat - 48)) 0)
  else none

def parsePreId (l : List Char) : PreId :=
  match parseNatChars? l with
  | some n => .num n
  | none => .str l

/-- Parse `major.minor.patch` with an optional `-prerelease` (identifiers
separated by dots; hyphens after the first stay inside identifiers) and an
ignored `+build` suffix. -/
def semverParse (s : String) : Option SemVerV :=
  let chars := (breakAtChar '+' s.toList).1
  let mainPre := breakAtChar '-' chars
  match splitOnChar '.' mainPre.1 with
  | [a, b, c] =>
    match parseNatChars? a, parseNatChars? b, parseNatChars? c with
    | some major, some minor, some patch =>
      match mainPre.2 with
      | none => some ⟨major, minor, patch, []⟩
      | some pre =>
        let ids := splitOnChar '.' pre
        if ids.any List.isEmpty then none
        else some ⟨major, minor, patch, ids.map parsePreId⟩
    | _, _, _ => none
  | _ => none

def cmpNat (a b : Nat) : Ordering :=
  if a < b then .lt else if b < a then .gt else .eq

/-- ASCII-lexicographic comparison of alphanumeric identifiers. -/
def cmpCharList : List Char → List Char → Ordering
  | [], [] => .eq
  | [], _ :: _ => .lt
  | _ :: _, [] => .gt
  | a :: as_, b :: bs =>
    if a.toNat < b.toNat then .lt
    else if b.toNat < a.toNat then .gt
    else cmpCharList as_ bs

def cmpPreId : PreId → PreId → Ordering
  | .num a, .num b => cmpNat a b
  | .num _, .str _ => .lt
  | .str _, .num _ => .gt
  | .str a, .str b => cmpCharList a b

def cmpPreList : List PreId → List PreId → Ordering
  | [], [] => .eq
  | [], _ :: _ => .lt
  | _ :: _, [] => .gt
  | a :: as_, b :: bs =>
    match cmpPreId a b with
    | .eq => cmpPreList as_ bs
    | o => o

/-- Semver precedence: compare major, minor, patch, then pre-release (a
version with a pre-release list precedes the plain version). -/
def semverCompare (a b : SemVerV) : Ordering :=
  match cmpNat a.major b.major with
  | .eq =>
    match cmpNat a.minor b.minor with
    | .eq =>
      match cmpNat a.patch b.patch with
      | .eq =>
        match a.prerelease, b.prerelease with
        | [], [] => .eq
        | [], _ :: _ => .gt
        | _ :: _, [] => .lt
        | pa, pb => cmpPreList pa pb
      | o => o
    | o => o
  | o => o

/-- The version gate `>0.4.99 <=0.5.0-next.2` with pre-releases included:
strictly above 0.4.99 and at or below 0.5.0-next.2 in semver precedence. -/
def satisfiesGate (v : SemVerV) : Bool :=
  (semverCompare ⟨0, 4, 99, []⟩ v == Ordering.lt) &&
  !(semverCompare v ⟨0, 5, 0, [.str ['n', 'e', 'x', 't'], .num 2]⟩ == Ordering.gt)

/-- The `close` handler checks of `load`: project root seen, version seen,
version parses, version satisfies the gate. -/
def checkAfterLoad (s : Store) : Except String Store :=
  match s.projectRoot with
  | none => .error "No project root provided."
  | some _ =>
    match s.version with
    | none => .error "No version found."
    | some version =>
      match semverParse version with
      | none => .error ("No valid semantic version string. The version is: " ++ version)
      | some sv =>
        if satisfiesGate sv then .ok s
        else .error ("Requires version 0.5.0 or higher but received: " ++ version)

/-- load: process every line in order, then run the end-of-stream checks.
Any error aborts with no store. -/
def load (h : String → String) (lines : List Line) : Except String Store := do
  let s ← loadLines h emptyStore lines
  checkAfterLoad s

/-! ## Query engine -/

/-- Modelled from the spec: the URI transformer of the host layer
(`database.ts`, an out-of-scope collaborator per the spec) is the identity on
index-native URIs. -/
def toDatabase (uri : String) : String := uri

/-- Modelled from the spec: inverse direction of the out-of-scope URI
transformer, also the identity. -/
def fromDatabase (uri : String) : String := uri

/-- findFile: the first-registered document's id together with the bucket's
canonical hash. An empty bucket would crash on `result.documents[0].id`;
buckets are never empty after ingestion, the `[]` branch is a dead default. -/
def findFile (s : Store) (uri : String) : Option (Id × String) :=
  match mapGet s.idx_documents uri with
  | none => none
  | some result =>
    match result.documents with
    | [] => none
    | d0 :: _ => some (d0.id, result.hash)

/-- fileContent: raw text registered under a content hash. -/
def fileContent (s : Store) (hash : String) : Option String :=
  mapGet s.idx_contents hash

/-- containsPosition, translated comparison by comparison. -/
def containsPosition (range : LspRange) (position : Pos) : Bool :=
  if position.line < range.start.line ∨ position.line > range.end_.line then false
  else if position.line = range.start.line ∧ position.character < range.start.character then false
  else if position.line = range.end_.line ∧ position.character > range.end_.character then false
  else true

/-- containsRange: is `otherRange` inside `range` (equality included)? -/
def containsRange (range otherRange : LspRange) : Bool :=
  if otherRange.start.line < range.start.line ∨ otherRange.end_.line < range.start.line then false
  else if otherRange.start.line > range.end_.line ∨ otherRange.end_.line > range.end_.line then false
  else if otherRange.start.line = range.start.line ∧ otherRange.start.character < range.start.character then false
  else if otherRange.end_.line = range.end_.line ∧ otherRange.end_.character > range.end_.character then false
  else true

/-- One step of the candidate loop in findRangeFromPosition: non-range
children are skipped; a matching range replaces the current candidate
exactly when it is contained in it. -/
def pickCandidate (position : Pos) (candidate : Option Vertex) (item : Vertex) : Option Vertex :=
  match item with
  | .range _ span _ =>
    if containsPosition span position then
      match candidate with
      | none => some item
      | some c => if containsRange c.spanD span then some item else candidate
    else candidate
  | _ => candidate

/-- findRangeFromPosition: canonical document of the file, then scan its
directly contained vertices. An empty bucket would crash on
`value.documents[0].id` (dead branch, modelled as `none`). -/
def findRangeFromPosition (s : Store) (file : String) (position : Pos) : Option Vertex :=
  match mapGet s.idx_documents file with
  | none => none
  | some value =>
    match value.documents with
    | [] => none
    | d0 :: _ =>
      match mapGet s.out_contains d0.id with
      | none => none
      | some contained =>
        if contained.isEmpty then none
        else contained.foldl (pickCandidate position) none

/-- getResultForId as written in the source: it checks `edges` at
`currentId`, but on a miss follows `this.out.next.get(id)` with the ORIGINAL
`id`, so `currentId` never advances past the original vertex's immediate
successor. `none` means the `do … while (true)` loop is still running when
the fuel runs out. -/
def getResultForIdFuel {α : Type} (s : Store) (edges : List (Id × α)) :
    Nat → Id → Id → Option (Option α × Id)
  | 0, _, _ => none
  | fuel + 1, id, currentId =>
    match mapGet edges currentId with
    | some result => some (some result, currentId)
    | none =>
      match mapGet s.out_next id with
      | none => some (none, id)
      | some next => getResultForIdFuel s edges fuel id next.id

def getResultForId {α : Type} (s : Store) (edges : List (Id × α)) (fuel : Nat) (id : Id) :
    Option (Option α × Id) :=
  getResultForIdFuel s edges fuel id id

/-- findMonikers as written in the source: the same original-`id` slip, on
the `in.previous` lookup. On success the found moniker (if any) is appended
to the accumulator, mirroring `result.push(moniker)`. -/
def findMonikersFuel (s : Store) : Nat → List Vertex → Id → Id → Option (List Vertex)
  | 0, _, _, _ => none
  | fuel + 1, result, id, currentId =>
    match mapGet s.out_moniker currentId with
    | some moniker => some (result ++ [moniker])
    | none =>
      match mapGet s.in_previous id with
      | none => some result
      | some previous => findMonikersFuel s fuel result id previous.id

/-- item: the typed overloads all return `out.item.get(value.id)` when the
label matches, `undefined` otherwise. -/
def Store.item (s : Store) (v : Vertex) : Option (List ItemTarget) :=
  match v with
  | .declarationResult i => mapGet s.out_item i
  | .definitionResult i => mapGet s.out_item i
  | .referenceResult i => mapGet s.out_item i
  | _ => none

structure Location where
  uri : String
  range : LspRange
deriving DecidableEq

/-- State threaded through the reference expansion: the result array plus the
two dedup sets of `references`. -/
structure RefState where
  locations : List (Id × Location)
  dedupRanges : List Id
  dedupMonikers : List (Option String)

/-- addLocation: in the reference paths the contributed `value` is always a
Range vertex (never an `lsp.Location`), so the `lsp.Location.is` branch of
the source cannot fire and the dedup branch is always taken. Each pushed
location is paired with the contributing range id — the id the source tests
against the dedup set as it pushes — so deduplication per range id can be
stated; the location list the code returns is the `Prod.snd` projection. A
range with no containing document makes the source crash on its non-null
assertion `this.in.contains.get(value.id)!`; that is the `none` branch. -/
def addLocation (s : Store) (st : RefState) (value : Vertex) : Option RefState :=
  if value.id ∈ st.dedupRanges then some st
  else
    match mapGet s.in_contains value.id with
    | none => none
    | some document =>
      some { st with
        locations := st.locations ++ [(value.id, ⟨fromDatabase document.uriD, value.spanD⟩)],
        dedupRanges := value.id :: st.dedupRanges }

mutual

/-- resolveReferenceResult: expand the item targets of a reference result,
collecting locations and pending monikers. Fuel bounds the (unguarded)
recursion through nested referenceResults items. -/
def resolveReferenceResultFuel (s : Store) :
    Nat → RefState → List Vertex → Vertex → Bool → Option (RefState × List Vertex)
  | 0, _, _, _, _ => none
  | fuel + 1, st, monikers, referenceResult, includeDeclaration =>
    match s.item referenceResult with
    | none => some (st, monikers)
    | some targets => itemTargetsFuel s fuel st monikers targets includeDeclaration

/-- The `for (let target of targets)` body of resolveReferenceResult. -/
def itemTargetsFuel (s : Store) :
    Nat → RefState → List Vertex → List ItemTarget → Bool → Option (RefState × List Vertex)
  | 0, _, _, _, _ => none
  | _ + 1, st, monikers, [], _ => some (st, monikers)
  | fuel + 1, st, monikers, target :: rest, includeDeclaration =>
    match target with
    | .declarations r =>
      if includeDeclaration then
        match addLocation s st r with
        | none => none
        | some st2 => itemTargetsFuel s fuel st2 monikers rest includeDeclaration
      else itemTargetsFuel s fuel st monikers rest includeDeclaration
    | .definitions r =>
      if includeDeclaration then
        match addLocation s st r with
        | none => none
        | some st2 => itemTargetsFuel s fuel st2 monikers rest includeDeclaration
      else itemTargetsFuel s fuel st monikers rest includeDeclaration
    | .references r =>
      match addLocation s st r with
      | none => none
      | some st2 => itemTargetsFuel s fuel st2 monikers rest includeDeclaration
    | .referenceResults rr =>
      match resolveReferenceResultFuel s fuel st monikers rr includeDeclaration with
      | none => none
      | some (st2, monikers2) => itemTargetsFuel s fuel st2 monikers2 rest includeDeclaration
    | .referenceLinks m => itemTargetsFuel s fuel st (monikers ++ [m]) rest includeDeclaration
    | .plain _ => itemTargetsFuel s fuel st monikers rest includeDeclaration

end

/-- The `for (const matchingMoniker of matchingMonikers)` loop of
`references`: skip the moniker itself, find the vertex the matching moniker
is attached to, resolve that vertex's reference result (by the same buggy
chain walk) and expand it into the shared state. -/
def matchingLoopFuel (s : Store) :
    Nat → RefState → List Vertex → Id → List Vertex → Bool → Option (RefState × List Vertex)
  | 0, _, _, _, _, _ => none
  | _ + 1, st, monikers, _, [], _ => some (st, monikers)
  | fuel + 1, st, monikers, monikerId, mm :: rest, includeDeclaration =>
    if mm.id = monikerId then matchingLoopFuel s fuel st monikers monikerId rest includeDeclaration
    else
      match mapGet s.in_moniker mm.id with
      | none => matchingLoopFuel s fuel st monikers monikerId rest includeDeclaration
      | some vertex =>
        match getResultForId s s.out_references fuel vertex.id with
        | none => none
        | some (none, _) => matchingLoopFuel s fuel st monikers monikerId rest includeDeclaration
        | some (some referenceResult, _) =>
          match resolveReferenceResultFuel s fuel st monikers referenceResult includeDeclaration with
          | none => none
          | some (st2, monikers2) =>
            matchingLoopFuel s fuel st2 monikers2 monikerId rest includeDeclaration

/-- The `for (const moniker of monikers)` loop of `references`. JavaScript
array iteration is by index and sees elements appended during the loop, so
the loop is modelled with an explicit index into the growing list. -/
def monikerLoopFuel (s : Store) : Nat → RefState → List Vertex → Nat → Bool → Option RefState
  | 0, _, _, _, _ => none
  | fuel + 1, st, monikers, i, includeDeclaration =>
    match monikers[i]? with
    | none => some st
    | some m =>
      if m.monikerKey ∈ st.dedupMonikers then
        monikerLoopFuel s fuel st monikers (i + 1) includeDeclaration
      else
        let st2 := { st with dedupMonikers := m.monikerKey :: st.dedupMonikers }
        let matching : Option (List Vertex) :=
          match m.monikerKey with
          | none => none
          | some key => mapGet s.idx_monikers key
        match matching with
        | none => monikerLoopFuel s fuel st2 monikers (i + 1) includeDeclaration
        | some matchingMonikers =>
          match matchingLoopFuel s fuel st2 monikers m.id matchingMonikers includeDeclaration with
          | none => none
          | some (st3, monikers3) => monikerLoopFuel s fuel st3 monikers3 (i + 1) includeDeclaration

/-- The local `findReferences` closure of `references`. -/
def findReferencesFuel (s : Store) (fuel : Nat) (st : RefState) (range : Vertex)
    (includeDeclaration : Bool) : Option RefState :=
  match getResultForId s s.out_references fuel range.id with
  | none => none
  | some (none, _) => some st
  | some (some referenceResult, anchorId) =>
    match resolveReferenceResultFuel s fuel st [] referenceResult includeDeclaration with
    | none => none
    | some (st2, monikers) =>
      match findMonikersFuel s fuel monikers anchorId anchorId with
      | none => none
      | some monikers2 => monikerLoopFuel s fuel st2 monikers2 0 includeDeclaration

/-- references: outer `some` means the call returns (within fuel, without a
crash); the inner option is `undefined` versus the location array, each
location paired with its contributing range id. -/
def referencesFuel (s : Store) (fuel : Nat) (uri : String) (position : Pos)
    (includeDeclaration : Bool) : Option (Option (List (Id × Location))) :=
  match findRangeFromPosition s (toDatabase uri) position with
  | none => some none
  | some range =>
    match findReferencesFuel s fuel ⟨[], [], []⟩ range includeDeclaration with
    | none => none
    | some st => some (some st.locations)

/-! ## Document symbols -/

def Vertex.docSymPayload : Vertex → Option DocSymResult
  | .documentSymbolResult _ r => some r
  | _ => none

mutual

/-- toDocumentSymbol: a node converts only when its range carries a
declaration or definition tag; children are converted first and attached
only when the range-based node had children. A missing range makes the
source crash on the non-null assertion `this.vertices.ranges.get(value.id)!`
(the `Except.error` branch). -/
def toDocumentSymbol (s : Store) : RangeBasedDocumentSymbol → Except Unit (Option DocumentSymbol)
  | .mk id children =>
    match mapGet s.ranges id with
    | none => .error ()
    | some rv =>
      match rv.tagOf with
      | none => .ok none
      | some tag =>
        match tag.type with
        | .otherTag => .ok none
        | _ =>
          match children with
          | [] => .ok (some (.mk tag.text (tag.detail.getD "") tag.kind tag.fullRange rv.spanD none))
          | c :: cs => do
            let converted ← toDocumentSymbolList s (c :: cs)
            pure (some (.mk tag.text (tag.detail.getD "") tag.kind tag.fullRange rv.spanD (some converted)))

/-- The child-conversion loop of toDocumentSymbol: converted children are
kept in order, children that do not convert are dropped. -/
def toDocumentSymbolList (s : Store) : List RangeBasedDocumentSymbol → Except Unit (List DocumentSymbol)
  | [] => .ok []
  | c :: cs => do
    let r ← toDocumentSymbol s c
    let rest ← toDocumentSymbolList s cs
    pure (match r with | some d => d :: rest | none => rest)

end

/-- documentSymbols: canonical document, direct documentSymbol result, empty
result list means `undefined`; otherwise fully materialized symbols are
shallow-copied (the identity, functionally) and range-based ones are
reconstructed. Reading `.result` off a vertex that is not a
DocumentSymbolResult is an unchecked-cast crash (`Except.error`). -/
def documentSymbols (s : Store) (uri : String) : Except Unit (Option (List DocumentSymbol)) :=
  match mapGet s.idx_documents (toDatabase uri) with
  | none => .ok none
  | some value =>
    match value.documents with
    | [] => .error ()
    | d0 :: _ =>
      match mapGet s.out_documentSymbol d0.id with
      | none => .ok none
      | some v =>
        match v.docSymPayload with
        | none => .error ()
        | some payload =>
          if payload.length = 0 then .ok none
          else
            match payload with
            | .full items => .ok (some items)
            | .rangeBased items => (toDocumentSymbolList s items).map some

/-! ## Spec-modelled chain walk (for claim C1)

Modelled from the spec: `resolveAttached(rangeId, resultKind)` — starting at
rangeId, follow `next` pointers (rangeId itself first) until a vertex has the
requested direct result edge; return the result and the anchor id where it
was found, or not-found if the chain ends first. Fuel bounds the walk. -/

def resolveAttachedSpec {α : Type} (s : Store) (edges : List (Id × α)) :
    Nat → Id → Option (Option α × Id)
  | 0, _ => none
  | fuel + 1, currentId =>
    match mapGet edges currentId with
    | some result => some (some result, currentId)
    | none =>
      match mapGet s.out_next currentId with
      | none => some (none, currentId)
      | some next => resolveAttachedSpec s edges fuel next.id

/-! ## Spec-modelled position lookup (for the refinement claim C5) -/

/-- Modelled from the spec: position containment as the claim states it —
the line lies between the start and end lines, with character ≥
start.character on the start line and character ≤ end.character on the end
line. -/
def specContains (span : LspRange) (p : Pos) : Bool :=
  decide ((span.start.line ≤ p.line ∧ p.line ≤ span.end_.line) ∧
    (p.line = span.start.line → span.start.character ≤ p.character) ∧
    (p.line = span.end_.line → p.character ≤ span.end_.character))

def isRangeVertex : Vertex → Bool
  | .range _ _ _ => true
  | _ => false

/-- Modelled from the spec: the most specific candidate wins — a later match
replaces the current candidate exactly when it nests inside it, otherwise
the first encountered is kept. -/
def specPick (candidate : Option Vertex) (item : Vertex) : Option Vertex :=
  match candidate with
  | none => some item
  | some c => if containsRange c.spanD item.spanD then some item else candidate

/-- Modelled from the spec: among the canonical document's directly
contained ranges, keep those containing the position, then fold left with
`specPick`. -/
def rangeAtPositionSpec (s : Store) (file : String) (position : Pos) : Option Vertex :=
  match mapGet s.idx_documents file with
  | none => none
  | some value =>
    match value.documents with
    | [] => none
    | d0 :: _ =>
      match mapGet s.out_contains d0.id with
      | none => none
      | some contained =>
        if contained.isEmpty then none
        else
          (contained.filter fun item =>
            isRangeVertex item && specContains item.spanD position).foldl specPick none

/-! ## Helper predicates and concrete instances used by the theorems -/

def isOkB {ε α : Type} : Except ε α → Bool
  | .ok _ => true
  | .error _ => false

def isErrorB {ε α : Type} : Except ε α → Bool
  | .error _ => true
  | .ok _ => false

/-- Ids of the vertices carried by the vertex lines of an input prefix —
exactly the keys `vertices.all` holds after processing those lines. -/
def vertexIds (lines : List Line) : List Id :=
  lines.filterMap fun l => match l with | .vertexLine v => some v.id | _ => none

/-- The first edge endpoint, in the order `doProcessEdge` validates them,
that is not among `ids`: the source checks `outV` (on every single-target
application) and then each `inV` in sequence; a 1:N edge with an empty
target list performs no applications and validates nothing. -/
def firstMissing (ids : List Id) (e : EdgeRec) : Option Id :=
  match e.targets with
  | .one inV =>
    if e.outV ∉ ids then some e.outV
    else if inV ∉ ids then some inV else none
  | .many inVs =>
    match inVs with
    | [] => none
    | _ :: _ =>
      if e.outV ∉ ids then some e.outV
      else inVs.find? fun i => decide (i ∉ ids)

def notBlank : Line → Bool
  | .blank => false
  | _ => true

/-- The invariant carried through the reference expansion: contributing
range ids are pairwise distinct and all recorded in the dedup set. -/
def RefInv (st : RefState) : Prop :=
  (st.locations.map Prod.fst).Nodup ∧
  ∀ i ∈ st.locations.map Prod.fst, i ∈ st.dedupRanges

/-- A concrete stand-in for the opaque md5 digest in closed instances. -/
def hId : String → String := fun s => s

/-- A minimal stream carrying the given metaData version and a group root:
enough to reach the version gate of `load`. -/
def versionLines (v : String) : List Line :=
  [.vertexLine (.metaData 1 v), .vertexLine (.group 2 (some "file:///root"))]

/-- Chain store for C1/C2: `next` chain 1 → 2 → 3 with a hover result
attached only to vertex 3. -/
def chainStore : Store :=
  { emptyStore with
    out_next := [(1, .resultSet 2), (2, .resultSet 3)],
    out_hover := [(3, Vertex.hoverResult 9 "doc" none)] }

/-- Previous-chain store for C2: `previous` chain 3 → 2 → 1 with a moniker
attached only to vertex 1. -/
def prevStore : Store :=
  { emptyStore with
    in_previous := [(3, .resultSet 2), (2, .resultSet 1)],
    out_moniker := [(1, Vertex.moniker 7 "s" "i" .exportKind (some "k"))] }

/-- C3 cross-moniker store: range 10 in document "x" has reference result 12
(item: range 10) and moniker 20 with key "K"; moniker 21 shares key "K" and
is attached to range 30 in document "y", whose reference result 13
contributes range 31 in "y". -/
def rngA : Vertex := .range 10 ⟨⟨1, 0⟩, ⟨1, 3⟩⟩ none
def rng30 : Vertex := .range 30 ⟨⟨5, 0⟩, ⟨5, 3⟩⟩ none
def rng31 : Vertex := .range 31 ⟨⟨7, 0⟩, ⟨7, 3⟩⟩ none
def docX : Vertex := .document 1 "x" none
def docY : Vertex := .document 2 "y" none
def mon20 : Vertex := .moniker 20 "s" "f" .exportKind (some "K")
def mon21 : Vertex := .moniker 21 "s" "f" .exportKind (some "K")

def c3Store : Store :=
  { emptyStore with
    idx_documents := [("x", ⟨"hx", [docX]⟩), ("y", ⟨"hy", [docY]⟩)],
    out_contains := [(1, [rngA])],
    in_contains := [(10, docX), (30, docY), (31, docY)],
    out_references := [(10, .referenceResult 12), (30, .referenceResult 13)],
    out_item := [(12, [.references rngA]), (13, [.references rng31])],
    out_moniker := [(10, mon20)],
    in_moniker := [(21, rng30)],
    idx_monikers := [("K", [mon20, mon21])] }

/-- C5 store: ranges R1 (lines 0–10) and R2 (lines 2–4) directly contained
in the canonical document of "f", in that order. -/
def rangeR1 : Vertex := .range 10 ⟨⟨0, 0⟩, ⟨10, 5⟩⟩ none
def rangeR2 : Vertex := .range 11 ⟨⟨2, 0⟩, ⟨4, 9⟩⟩ none

def c5Store : Store :=
  { emptyStore with
    idx_documents := [("f", ⟨"h", [.document 1 "f" none]⟩)],
    out_contains := [(1, [rangeR1, rangeR2])] }

/-- C5 store with the two ranges in the opposite order. -/
def c5StoreRev : Store :=
  { emptyStore with
    idx_documents := [("f", ⟨"h", [.document 1 "f" none]⟩)],
    out_contains := [(1, [rangeR2, rangeR1])] }

/-- C7 witness store: one document registered under uri "u" with hash
"old". -/
def c7Store : Store :=
  { emptyStore with
    idx_documents := [("u", ⟨"old", [.document 5 "u" (some "old")]⟩)] }

/-- C8 counterexample stream: a valid-JSON line without the vertex/edge
discriminator between two well-formed vertex lines. -/
def c8Lines : List Line :=
  [.vertexLine (.metaData 1 "0.5.0-next.2"),
   .vertexLine (.group 2 (some "file:///r")),
   .otherLine]

/-- C9 witness store: the canonical document of "u" carries a
documentSymbol result whose result list is empty. -/
def c9Store : Store :=
  { emptyStore with
    idx_documents := [("u", ⟨"h", [.document 1 "u" none]⟩)],
    out_documentSymbol := [(1, .documentSymbolResult 2 (.rangeBased []))] }

/-- C6 counterexample stream: a contains edge whose outV 99 was never
ingested but whose inVs array is empty, inside an otherwise valid stream.
`processEdge` applies a 1:N edge as one single-target application per inVs
element, so this edge performs zero applications and zero endpoint
validations. -/
def c6CexLines : List Line :=
  [.vertexLine (.metaData 1 "0.4.100"),
   .vertexLine (.group 2 (some "file:///r")),
   .edgeLine ⟨.contains, 99, .many []⟩]

/-! # Basic lemmas -/

theorem mapGet_mapSet {κ β : Type} [DecidableEq κ] (m : List (κ × β)) (k x : κ) (v : β) :
    mapGet (mapSet m k v) x = if k = x then some v else mapGet m x := rfl

theorem load_eq (h : String → String) (lines : List Line) :
    load h lines = (loadLines h emptyStore lines).bind checkAfterLoad := rfl

theorem loadLines_nil (h : String → String) (s : Store) : loadLines h s [] = .ok s := rfl

theorem loadLines_cons (h : String → String) (s : Store) (l : Line) (rest : List Line) :
    loadLines h s (l :: rest) = (processLine h s l).bind fun s' => loadLines h s' rest := rfl

theorem loadLines_append (h : String → String) (s : Store) (l1 l2 : List Line) :
    loadLines h s (l1 ++ l2) = (loadLines h s l1).bind fun s' => loadLines h s' l2 := by
  induction l1 generalizing s with
  | nil => rfl
  | cons l rest ih =>
    rw [List.cons_append, loadLines_cons, loadLines_cons]
    cases processLine h s l with
    | error e => rfl
    | ok s' => simpa using ih s'

/-! # Claim C1 -/

/-- On the chain 1 → 2 → 3 with the result only at 3, the walk that re-reads
`next` of the original id is stuck at currentId = 2 for every fuel. -/
theorem chainStore_stuck (fuel : Nat) :
    getResultForIdFuel chainStore chainStore.out_hover fuel 1 2 = none := by
  induction fuel with
  | zero => rfl
  | succ n ih => simpa [getResultForIdFuel, chainStore, mapGet, Vertex.id] using ih

theorem chainStore_diverges (fuel : Nat) :
    getResultForId chainStore chainStore.out_hover fuel 1 = none := by
  cases fuel with
  | zero => rfl
  | succ n =>
    simpa [getResultForId, getResultForIdFuel, chainStore, mapGet, Vertex.id]
      using chainStore_stuck n

/-- C1: the claim describes `getResultForId` as following successive `next`
pointers and returning the first attached result with its anchor, or
not-found when the chain ends. The code instead reads
`this.out.next.get(id)` with the original id on every iteration, so on the
`next` chain 1 → 2 → 3 whose hover result is attached only to vertex 3 the
`do … while (true)` loop never exits (the fueled model returns `none` for
every fuel), whereas the walk the claim describes finds the result at
anchor 3. -/
theorem c1_getResultForId_stuck_while_spec_walk_succeeds :
    (∀ fuel : Nat, getResultForId chainStore chainStore.out_hover fuel 1 = none) ∧
    resolveAttachedSpec chainStore chainStore.out_hover 10 1 =
      some (some (Vertex.hoverResult 9 "doc" none), 3) :=
  ⟨chainStore_diverges, by rfl⟩

/-! # Claim C2 -/

/-- On the `previous` chain 3 → 2 → 1 with the moniker only at 1, the walk
that re-reads `previous` of the original id is stuck at currentId = 2. -/
theorem prevStore_stuck (fuel : Nat) :
    findMonikersFuel prevStore fuel [] 3 2 = none := by
  induction fuel with
  | zero => rfl
  | succ n ih => simpa [findMonikersFuel, prevStore, mapGet, Vertex.id] using ih

theorem prevStore_diverges (fuel : Nat) :
    findMonikersFuel prevStore fuel [] 3 3 = none := by
  cases fuel with
  | zero => rfl
  | succ n =>
    simpa [findMonikersFuel, prevStore, mapGet, Vertex.id] using prevStore_stuck n

/-- C2: the claim says both chain walks terminate on every loaded store. In
the code both loops advance `currentId` from a `next`/`previous` lookup of
the ORIGINAL id, so neither loop can progress past the first hop: on the
`next` chain 1 → 2 → 3 with the hover result only at 3, `getResultForId`
never returns, and on the `previous` chain 3 → 2 → 1 with the moniker only
at 1, `findMonikers` never returns — the fueled models return `none` for
every fuel. -/
theorem c2_chain_walks_do_not_terminate :
    (∀ fuel : Nat, getResultForId chainStore chainStore.out_hover fuel 1 = none) ∧
    (∀ fuel : Nat, findMonikersFuel prevStore fuel [] 3 3 = none) := by
  refine ⟨?_, ?_⟩
  · intro fuel
    cases fuel with
    | zero => rfl
    | succ n =>
      have stuck : ∀ k, getResultForIdFuel chainStore chainStore.out_hover k 1 2 = none := by
        intro k
        induction k with
        | zero => rfl
        | succ j ih => simpa [getResultForIdFuel, chainStore, mapGet, Vertex.id] using ih
      simpa [getResultForId, getResultForIdFuel, chainStore, mapGet, Vertex.id] using stuck n
  · exact prevStore_diverges

/-! # Claim C4 -/

/-- C4 counterexample: the claim says the gate accepts metaData.version
"0.5.0"; `load` rejects it, because 0.5.0 is higher than 0.5.0-next.2 in
semver precedence, so the upper bound `<=0.5.0-next.2` excludes it. -/
theorem c4_version_0_5_0_rejected :
    load hId (versionLines "0.5.0") =
      .error "Requires version 0.5.0 or higher but received: 0.5.0" := by rfl

/-- C4 amended: the gate accepts exactly the parseable versions strictly
above 0.4.99 and at or below 0.5.0-next.2 in semver precedence (pre-release
identifiers compared per the semver standard); at the boundaries "0.4.5",
"0.4.99", "0.5.0" and "0.5.0-next.3" are rejected with an error naming the
offending version, while "0.4.100" and "0.5.0-next.2" are accepted. -/
theorem c4_version_gate_amended :
    (∀ (h : String → String) (ver : String) (sv : SemVerV), semverParse ver = some sv →
      isOkB (load h (versionLines ver)) = satisfiesGate sv) ∧
    isOkB (load hId (versionLines "0.4.100")) = true ∧
    isOkB (load hId (versionLines "0.5.0-next.2")) = true ∧
    load hId (versionLines "0.4.5") =
      .error "Requires version 0.5.0 or higher but received: 0.4.5" ∧
    load hId (versionLines "0.4.99") =
      .error "Requires version 0.5.0 or higher but received: 0.4.99" ∧
    load hId (versionLines "0.5.0") =
      .error "Requires version 0.5.0 or higher but received: 0.5.0" ∧
    load hId (versionLines "0.5.0-next.3") =
      .error "Requires version 0.5.0 or higher but received: 0.5.0-next.3" := by
  refine ⟨?_, by rfl, by rfl, by rfl, by rfl, by rfl, by rfl⟩
  intro h ver sv hsv
  have step : load h (versionLines ver) =
      (match semverParse ver with
       | none => Except.error ("No valid semantic version string. The version is: " ++ ver)
       | some sv' =>
         if satisfiesGate sv' then
           Except.ok (processVertex h (processVertex h emptyStore (.metaData 1 ver))
             (.group 2 (some "file:///root")))
         else Except.error ("Requires version 0.5.0 or higher but received: " ++ ver)) := rfl
  rw [step, hsv]
  cases hg : satisfiesGate sv <;> simp [isOkB, hg]

/-- C4 witness for the amended gate characterisation, at version
"0.4.100". -/
theorem c4_version_gate_amended_witness :
    isOkB (load hId (versionLines "0.4.100")) = satisfiesGate ⟨0, 4, 100, []⟩ :=
  c4_version_gate_amended.1 hId "0.4.100" ⟨0, 4, 100, []⟩ (by rfl)

/-! # Claim C8 -/

/-- C8 counterexample: `c8Lines` contains a non-blank, valid-JSON line
without the vertex/edge discriminator, yet `load` succeeds — the `switch` in
the line handler has no default case and silently ignores the record. -/
theorem c8_discriminatorless_record_does_not_abort :
    isOkB (load hId c8Lines) = true := by rfl

/-- C8 amended: a line on which JSON.parse throws aborts the whole load with
no store, but a parsed record lacking the vertex/edge discriminator is
silently skipped: load of the stream with the record removed is the same
computation. -/
theorem c8_malformed_fatal_other_skipped :
    (∀ (h : String → String) (pre post : List Line) (msg : String),
      isErrorB (load h (pre ++ .malformed msg :: post)) = true) ∧
    (∀ (h : String → String) (pre post : List Line),
      load h (pre ++ .otherLine :: post) = load h (pre ++ post)) := by
  constructor
  · intro h pre post msg
    rw [load_eq, loadLines_append]
    cases loadLines h emptyStore pre with
    | error e => rfl
    | ok s' => rfl
  · intro h pre post
    rw [load_eq, load_eq, loadLines_append, loadLines_append]
    cases loadLines h emptyStore pre with
    | error e => rfl
    | ok s' => rfl

/-! # Claim C10 -/

theorem loadLines_filter_blank (h : String → String) (lines : List Line) :
    ∀ s : Store, loadLines h s (lines.filter notBlank) = loadLines h s lines := by
  induction lines with
  | nil => intro s; rfl
  | cons l rest ih =>
    intro s
    cases hb : notBlank l with
    | false =>
      have hbl : l = .blank := by cases l <;> simp [notBlank] at hb ⊢
      subst hbl
      simpa [List.filter_cons, notBlank] using ih s
    | true =>
      rw [List.filter_cons, hb, if_pos rfl, loadLines_cons, loadLines_cons]
      cases processLine h s l with
      | error e => rfl
      | ok s' => simpa using ih s'

/-- C10: an input stream with blank lines interspersed loads to exactly the
same result as the stream with the blank lines removed — the line handler
returns before parsing on an empty line, so a blank line can never raise a
parse error. -/
theorem c10_blank_lines_skipped (h : String → String) (lines : List Line) :
    load h (lines.filter notBlank) = load h lines := by
  rw [load_eq, load_eq, loadLines_filter_blank]

/-! # Claim C7 -/

/-- C7: ingesting a document vertex under an already-registered uri whose
content hashes differently never fails — ingestion is total — and afterwards
the uri bucket keeps its first-registered hash with the new document
appended, `findFile` keeps answering the first document's id and the old
hash, and the new vertex is registered under its own id. -/
theorem c7_divergent_content_non_fatal (h : String → String) (s : Store) (id : Id)
    (uri : String) (contents? : Option String) (b : DocumentsBucket) (d0 : Vertex)
    (rest : List Vertex)
    (hb : mapGet s.idx_documents uri = some b)
    (hdocs : b.documents = d0 :: rest)
    (_hne : h (contents?.getD "No content provided.") ≠ b.hash) :
    mapGet (processVertex h s (.document id uri contents?)).idx_documents uri =
      some ⟨b.hash, b.documents ++ [.document id uri contents?]⟩ ∧
    findFile (processVertex h s (.document id uri contents?)) uri = some (d0.id, b.hash) ∧
    mapGet (processVertex h s (.document id uri contents?)).documents id =
      some (.document id uri contents?) := by
  have hstep : (processVertex h s (.document id uri contents?)).idx_documents =
      mapSet s.idx_documents uri ⟨b.hash, b.documents ++ [.document id uri contents?]⟩ := by
    simp [processVertex, doProcessDocument, withAll, hb]
  refine ⟨?_, ?_, ?_⟩
  · rw [hstep, mapGet_mapSet, if_pos rfl]
  · unfold findFile
    rw [hstep, mapGet_mapSet, if_pos rfl]
    simp [hdocs]
  · simp [processVertex, doProcessDocument, withAll, mapGet_mapSet]

/-- C7 witness: a second document under uri "u" with contents "new" (hashing
differently from the bucket hash "old" under the identity digest). -/
theorem c7_divergent_content_witness :
    mapGet (processVertex hId c7Store (.document 6 "u" (some "new"))).idx_documents "u" =
      some ⟨"old", [.document 5 "u" (some "old"), .document 6 "u" (some "new")]⟩ ∧
    findFile (processVertex hId c7Store (.document 6 "u" (some "new"))) "u" = some (5, "old") ∧
    mapGet (processVertex hId c7Store (.document 6 "u" (some "new"))).documents 6 =
      some (.document 6 "u" (some "new")) :=
  c7_divergent_content_non_fatal hId c7Store 6 "u" (some "new")
    ⟨"old", [.document 5 "u" (some "old")]⟩ (.document 5 "u" (some "old")) []
    (by rfl) (by rfl) (by decide)

/-! # Claim C9 -/

/-- C9: when the canonical document's attached documentSymbol result has an
empty result list, `documentSymbols` answers not-found (`undefined`) rather
than an empty sequence; and a non-empty sequence can only come from a result
list with at least one entry. -/
theorem c9_empty_document_symbols_not_found :
    (∀ (s : Store) (uri : String) (b : DocumentsBucket) (d0 : Vertex) (rest : List Vertex)
       (rid : Id) (payload : DocSymResult),
       mapGet s.idx_documents (toDatabase uri) = some b →
       b.documents = d0 :: rest →
       mapGet s.out_documentSymbol d0.id = some (.documentSymbolResult rid payload) →
       payload.length = 0 →
       documentSymbols s uri = .ok none) ∧
    (∀ (s : Store) (uri : String) (l : List DocumentSymbol),
       documentSymbols s uri = .ok (some l) → l ≠ [] →
       ∃ (b : DocumentsBucket) (d0 : Vertex) (rest : List Vertex) (rid : Id)
         (payload : DocSymResult),
         mapGet s.idx_documents (toDatabase uri) = some b ∧
         b.documents = d0 :: rest ∧
         mapGet s.out_documentSymbol d0.id = some (.documentSymbolResult rid payload) ∧
         0 < payload.length) := by
  constructor
  · intro s uri b d0 rest rid payload hb hdocs hres hlen
    unfold documentSymbols
    rw [hb]
    simp only [hdocs, hres, Vertex.docSymPayload]
    rw [if_pos hlen]
  · intro s uri l hsym _hl
    unfold documentSymbols at hsym
    split at hsym
    · exact absurd hsym (by simp)
    · rename_i b hb
      split at hsym
      · exact absurd hsym (by simp)
      · rename_i d0 rest hdocs
        split at hsym
        · exact absurd hsym (by simp)
        · rename_i v hres
          split at hsym
          · exact absurd hsym (by simp)
          · rename_i payload hpay
            split at hsym
            · exact absurd hsym (by simp)
            · rename_i hlen
              cases v
              case documentSymbolResult rid payload2 =>
                simp only [Vertex.docSymPayload, Option.some.injEq] at hpay
                subst hpay
                exact ⟨b, d0, rest, rid, payload2, hb, hdocs, hres, Nat.pos_of_ne_zero hlen⟩
              all_goals simp [Vertex.docSymPayload] at hpay

/-- C9 witness: a store whose canonical document for "u" carries a
documentSymbol result with an empty (range-based) result list. -/
theorem c9_empty_document_symbols_witness : documentSymbols c9Store "u" = .ok none :=
  c9_empty_document_symbols_not_found.1 c9Store "u" ⟨"h", [.document 1 "u" none]⟩
    (.document 1 "u" none) [] 2 (.rangeBased []) (by rfl) (by rfl) (by rfl) (by rfl)

/-! # Claim C5 -/

/-- The half-open comparison of the source and the containment condition the
claim states agree on every range and position. -/
theorem containsPosition_eq_spec (span : LspRange) (p : Pos) :
    containsPosition span p = specContains span p := by
  unfold containsPosition specContains
  split_ifs with h1 h2 h3
  · symm; rw [decide_eq_false_iff_not]; omega
  · symm; rw [decide_eq_false_iff_not]; omega
  · symm; rw [decide_eq_false_iff_not]; omega
  · symm; rw [decide_eq_true_eq]; omega

/-- One loop step of findRangeFromPosition, rephrased: skip non-ranges and
non-matches, otherwise apply the replace-when-nested rule. -/
theorem pickCandidate_eq (position : Pos) (c : Option Vertex) (item : Vertex) :
    pickCandidate position c item =
      if isRangeVertex item && specContains item.spanD position then specPick c item else c := by
  cases item <;>
    simp [pickCandidate, isRangeVertex, Vertex.spanD, specPick, containsPosition_eq_spec]

/-- The candidate loop of the source equals filtering the matching ranges
and folding the replace-when-nested rule over them. -/
theorem foldl_pick_eq_spec (position : Pos) (l : List Vertex) :
    ∀ c : Option Vertex,
      l.foldl (pickCandidate position) c =
        (l.filter fun item => isRangeVertex item && specContains item.spanD position).foldl
          specPick c := by
  induction l with
  | nil => intro c; rfl
  | cons item rest ih =>
    intro c
    rw [List.foldl_cons, List.filter_cons, pickCandidate_eq]
    by_cases hp : (isRangeVertex item && specContains item.spanD position) = true
    · rw [if_pos hp, if_pos hp, List.foldl_cons]
      exact ih _
    · rw [if_neg hp, if_neg hp]
      exact ih c

/-- C5: `findRangeFromPosition` computes exactly the spec's description —
only the canonical document's directly contained ranges are considered,
containment is the stated per-line/character comparison, and among matches a
later candidate replaces the current one exactly when it nests inside it —
and on the spec's example (R1 spanning lines 0–10, R2 spanning lines 2–4,
query at line 3 character 0) it returns R2 in either containment order. -/
theorem c5_rangeAtPosition_refines_spec :
    (∀ (s : Store) (file : String) (position : Pos),
      findRangeFromPosition s file position = rangeAtPositionSpec s file position) ∧
    findRangeFromPosition c5Store "f" ⟨3, 0⟩ = some rangeR2 ∧
    findRangeFromPosition c5StoreRev "f" ⟨3, 0⟩ = some rangeR2 := by
  refine ⟨?_, by rfl, by rfl⟩
  intro s file position
  unfold findRangeFromPosition rangeAtPositionSpec
  split
  · rfl
  · split
    · rfl
    · split
      · rfl
      · rename_i contained heq
        split
        · rfl
        · exact foldl_pick_eq_spec position contained none

/-! # Claim C3 -/

/-- addLocation preserves the dedup invariant: it pushes a location only for
a range id not yet in the dedup set, and records the id as it pushes. -/
theorem addLocation_inv {s : Store} {st st' : RefState} {value : Vertex}
    (h : addLocation s st value = some st') (hinv : RefInv st) : RefInv st' := by
  unfold addLocation at h
  split at h
  · cases h
    exact hinv
  · rename_i hmem
    cases hg : mapGet s.in_contains value.id with
    | none => rw [hg] at h; cases h
    | some document =>
      rw [hg] at h
      cases h
      constructor
      · simp only [List.map_append, List.map_cons, List.map_nil]
        rw [List.nodup_append]
        refine ⟨hinv.1, List.nodup_singleton _, ?_⟩
        intro a ha hb
        simp only [List.mem_singleton] at hb
        subst hb
        exact hmem (hinv.2 _ ha)
      · intro i hi
        simp only [List.map_append, List.map_cons, List.map_nil, List.mem_append,
          List.mem_singleton] at hi
        rcases hi with hi | hi
        · exact List.mem_cons_of_mem _ (hinv.2 _ hi)
        · subst hi; exact List.mem_cons_self _ _

/-- Every stage of the reference expansion preserves the dedup invariant,
simultaneously for the four mutually calling loops. -/
theorem refInv_all (s : Store) : ∀ fuel : Nat,
    (∀ st monikers rr incl st' m',
      resolveReferenceResultFuel s fuel st monikers rr incl = some (st', m') →
      RefInv st → RefInv st') ∧
    (∀ st monikers ts incl st' m',
      itemTargetsFuel s fuel st monikers ts incl = some (st', m') →
      RefInv st → RefInv st') ∧
    (∀ st monikers monikerId ms incl st' m',
      matchingLoopFuel s fuel st monikers monikerId ms incl = some (st', m') →
      RefInv st → RefInv st') ∧
    (∀ st monikers i incl st',
      monikerLoopFuel s fuel st monikers i incl = some st' →
      RefInv st → RefInv st') := by
  intro fuel
  induction fuel with
  | zero =>
    refine ⟨?_, ?_, ?_, ?_⟩
    · intro st monikers rr incl st' m' h _
      simp [resolveReferenceResultFuel] at h
    · intro st monikers ts incl st' m' h _
      simp [itemTargetsFuel] at h
    · intro st monikers monikerId ms incl st' m' h _
      simp [matchingLoopFuel] at h
    · intro st monikers i incl st' h _
      simp [monikerLoopFuel] at h
  | succ n ih =>
    obtain ⟨ih1, ih2, ih3, ih4⟩ := ih
    refine ⟨?_, ?_, ?_, ?_⟩
    · intro st monikers rr incl st' m' h hinv
      simp only [resolveReferenceResultFuel] at h
      split at h
      · cases h; exact hinv
      · exact ih2 _ _ _ _ _ _ h hinv
    · intro st monikers ts incl st' m' h hinv
      cases ts with
      | nil =>
        simp only [itemTargetsFuel] at h
        cases h; exact hinv
      | cons target rest =>
        cases target with
        | declarations r =>
          simp only [itemTargetsFuel] at h
          split at h
          · split at h
            · simp at h
            · rename_i st2 ha
              exact ih2 _ _ _ _ _ _ h (addLocation_inv ha hinv)
          · exact ih2 _ _ _ _ _ _ h hinv
        | definitions r =>
          simp only [itemTargetsFuel] at h
          split at h
          · split at h
            · simp at h
            · rename_i st2 ha
              exact ih2 _ _ _ _ _ _ h (addLocation_inv ha hinv)
          · exact ih2 _ _ _ _ _ _ h hinv
        | references r =>
          simp only [itemTargetsFuel] at h
          split at h
          · simp at h
          · rename_i st2 ha
            exact ih2 _ _ _ _ _ _ h (addLocation_inv ha hinv)
        | referenceResults rr =>
          simp only [itemTargetsFuel] at h
          split at h
          · simp at h
          · rename_i st2 m2 hres
            exact ih2 _ _ _ _ _ _ h (ih1 _ _ _ _ _ _ hres hinv)
        | referenceLinks m =>
          simp only [itemTargetsFuel] at h
          exact ih2 _ _ _ _ _ _ h hinv
        | plain r =>
          simp only [itemTargetsFuel] at h
          exact ih2 _ _ _ _ _ _ h hinv
    · intro st monikers monikerId ms incl st' m' h hinv
      cases ms with
      | nil =>
        simp only [matchingLoopFuel] at h
        cases h; exact hinv
      | cons mm rest =>
        simp only [matchingLoopFuel] at h
        split at h
        · exact ih3 _ _ _ _ _ _ _ h hinv
        · split at h
          · exact ih3 _ _ _ _ _ _ _ h hinv
          · rename_i vertex hv
            split at h
            · simp at h
            · exact ih3 _ _ _ _ _ _ _ h hinv
            · rename_i rr anchor hg
              split at h
              · simp at h
              · rename_i st2 m2 hres
                exact ih3 _ _ _ _ _ _ _ h (ih1 _ _ _ _ _ _ hres hinv)
    · intro st monikers i incl st' h hinv
      simp only [monikerLoopFuel] at h
      split at h
      · cases h; exact hinv
      · rename_i m hm
        split at h
        · exact ih4 _ _ _ _ _ h hinv
        · split at h
          · exact ih4 _ _ _ _ _ h hinv
          · rename_i ms hms
            split at h
            · simp at h
            · rename_i st3 m3 hml
              exact ih4 _ _ _ _ _ h (ih3 _ _ _ _ _ _ _ hml hinv)

/-- The dedup invariant survives a whole `findReferences` run. -/
theorem findReferencesFuel_inv {s : Store} {fuel : Nat} {st st' : RefState} {range : Vertex}
    {incl : Bool} (h : findReferencesFuel s fuel st range incl = some st') (hinv : RefInv st) :
    RefInv st' := by
  unfold findReferencesFuel at h
  split at h
  · simp at h
  · cases h; exact hinv
  · rename_i rr anchorId hg
    split at h
    · simp at h
    · rename_i st2 monikers hres
      split at h
      · simp at h
      · rename_i monikers2 hm
        exact (refInv_all s fuel).2.2.2 _ _ _ _ _ h
          ((refInv_all s fuel).1 _ _ _ _ _ _ hres hinv)

/-- C3: whenever `references` returns a location sequence, the contributing
range ids are pairwise distinct — one location per contributing range id no
matter how many expansion paths reach the range — and on the cross-document
store `c3Store`, where ranges of document "y" are reachable only through the
second moniker sharing key "K", the result contains the local range 10 of
"x" and the remote range 31 of "y" exactly once each. -/
theorem c3_references_dedup_and_moniker_closure :
    (∀ (s : Store) (fuel : Nat) (uri : String) (position : Pos) (includeDeclaration : Bool)
       (res : List (Id × Location)),
       referencesFuel s fuel uri position includeDeclaration = some (some res) →
       (res.map Prod.fst).Nodup) ∧
    referencesFuel c3Store 50 "x" ⟨1, 1⟩ true =
      some (some [(10, ⟨"x", ⟨⟨1, 0⟩, ⟨1, 3⟩⟩⟩), (31, ⟨"y", ⟨⟨7, 0⟩, ⟨7, 3⟩⟩⟩)]) := by
  constructor
  · intro s fuel uri position incl res h
    unfold referencesFuel at h
    split at h
    · simp at h
    · rename_i range hr
      split at h
      · simp at h
      · rename_i st hf
        cases h
        have hst : RefInv st :=
          findReferencesFuel_inv hf ⟨List.nodup_nil, by intro i hi; simp at hi⟩
        exact hst.1
  · rfl

/-- C3 witness: the contributing range ids of the concrete cross-moniker
query are pairwise distinct. -/
theorem c3_references_dedup_witness :
    (([(10, (⟨"x", ⟨⟨1, 0⟩, ⟨1, 3⟩⟩⟩ : Location)),
       (31, (⟨"y", ⟨⟨7, 0⟩, ⟨7, 3⟩⟩⟩ : Location))] : List (Id × Location)).map Prod.fst).Nodup :=
  c3_references_dedup_and_moniker_closure.1 c3Store 50 "x" ⟨1, 1⟩ true _ (by rfl)

/-! # Claim C6 -/

theorem except_error_bind {ε α β : Type} (e : ε) (f : α → Except ε β) :
    (Except.error e).bind f = .error e := rfl

theorem except_ok_bind {ε α β : Type} (a : α) (f : α → Except ε β) :
    (Except.ok a).bind f = f a := rfl

theorem foldlM_edge_cons (l : EdgeLabel) (outV i : Id) (rest : List Id) (s : Store) :
    List.foldlM (fun acc inV => doProcessEdge acc l outV inV) s (i :: rest) =
      (doProcessEdge s l outV i).bind
        (fun s1 => List.foldlM (fun acc inV => doProcessEdge acc l outV inV) s1 rest) := rfl

/-- processVertex registers the vertex in `vertices.all` under its own id
and never touches any other `all` entry. -/
theorem processVertex_all_eq (h : String → String) (s : Store) (v : Vertex) :
    ∃ w : Vertex, (processVertex h s v).all = mapSet s.all v.id w := by
  cases v with
  | metaData i ver => exact ⟨_, rfl⟩
  | group i r =>
    cases r with
    | none => exact ⟨_, rfl⟩
    | some u => exact ⟨_, rfl⟩
  | project i => exact ⟨_, rfl⟩
  | event i sc k d =>
    cases k with
    | beginKind => cases sc <;> exact ⟨_, rfl⟩
    | endKind => exact ⟨_, rfl⟩
  | document i u c => exact ⟨_, rfl⟩
  | moniker i sch idf k key =>
    cases k with
    | localKind => exact ⟨_, rfl⟩
    | importKind => exact ⟨_, rfl⟩
    | exportKind => exact ⟨_, rfl⟩
  | range i sp t => exact ⟨_, rfl⟩
  | resultSet i => exact ⟨_, rfl⟩
  | documentSymbolResult i r => exact ⟨_, rfl⟩
  | foldingRangeResult i => exact ⟨_, rfl⟩
  | declarationResult i => exact ⟨_, rfl⟩
  | definitionResult i => exact ⟨_, rfl⟩
  | referenceResult i => exact ⟨_, rfl⟩
  | hoverResult i c r => exact ⟨_, rfl⟩
  | otherVertex i => exact ⟨_, rfl⟩

theorem hasVertex_processVertex (h : String → String) (s : Store) (v : Vertex) (x : Id) :
    (mapGet (processVertex h s v).all x).isSome = true ↔
      x = v.id ∨ (mapGet s.all x).isSome = true := by
  obtain ⟨w, hw⟩ := processVertex_all_eq h s v
  rw [hw, mapGet_mapSet]
  by_cases hx : v.id = x
  · subst hx; simp
  · rw [if_neg hx]
    constructor
    · exact fun hh => Or.inr hh
    · rintro (hh | hh)
      · exact absurd hh.symm hx
      · exact hh

/-- Edge processing never touches `vertices.all`. -/
theorem doProcessEdge_ok_all {s s' : Store} {l : EdgeLabel} {a b : Id}
    (h : doProcessEdge s l a b = .ok s') : s'.all = s.all := by
  unfold doProcessEdge at h
  split at h
  · cases h
  · rename_i fv hf
    split at h
    · cases h
    · rename_i tv ht
      cases h
      cases l <;> rfl

theorem foldlM_doProcessEdge_ok_all {l : EdgeLabel} {outV : Id} :
    ∀ (inVs : List Id) (s s' : Store),
      List.foldlM (fun acc inV => doProcessEdge acc l outV inV) s inVs = .ok s' →
      s'.all = s.all := by
  intro inVs
  induction inVs with
  | nil => intro s s' h; cases h; rfl
  | cons i rest ih =>
    intro s s' h
    rw [foldlM_edge_cons] at h
    cases hd : doProcessEdge s l outV i with
    | error e => rw [hd, except_error_bind] at h; cases h
    | ok s1 =>
      rw [hd, except_ok_bind] at h
      rw [ih s1 s' h, doProcessEdge_ok_all hd]

theorem processEdge_ok_all {s s' : Store} {e : EdgeRec}
    (h : processEdge s e = .ok s') : s'.all = s.all := by
  obtain ⟨label, outV, targets⟩ := e
  cases targets with
  | one inV => exact doProcessEdge_ok_all h
  | many inVs => exact foldlM_doProcessEdge_ok_all inVs s s' h

theorem doProcessEdge_ok_of_present {s : Store} {l : EdgeLabel} {a b : Id}
    (ha : (mapGet s.all a).isSome = true) (hb : (mapGet s.all b).isSome = true) :
    ∃ s', doProcessEdge s l a b = .ok s' := by
  obtain ⟨fv, hfv⟩ := Option.isSome_iff_exists.mp ha
  obtain ⟨tv, htv⟩ := Option.isSome_iff_exists.mp hb
  unfold doProcessEdge
  rw [hfv, htv]
  exact ⟨_, rfl⟩

theorem doProcessEdge_err_outV {s : Store} {l : EdgeLabel} {a b : Id}
    (ha : mapGet s.all a = none) :
    doProcessEdge s l a b = .error ("No vertex found for Id " ++ toString a) := by
  unfold doProcessEdge; rw [ha]

theorem doProcessEdge_err_inV {s : Store} {l : EdgeLabel} {a b : Id} {fv : Vertex}
    (ha : mapGet s.all a = some fv) (hb : mapGet s.all b = none) :
    doProcessEdge s l a b = .error ("No vertex found for Id " ++ toString b) := by
  unfold doProcessEdge; rw [ha, hb]

/-- After loading a prefix, a vertex id is present in `vertices.all` exactly
when some vertex line of the prefix carried it (or it was present before). -/
theorem loadLines_hasVertex (h : String → String) :
    ∀ (lines : List Line) (s0 s : Store), loadLines h s0 lines = .ok s →
      ∀ x, ((mapGet s.all x).isSome = true ↔
        x ∈ vertexIds lines ∨ (mapGet s0.all x).isSome = true) := by
  intro lines
  induction lines with
  | nil =>
    intro s0 s hl x
    cases hl
    simp [vertexIds]
  | cons l rest ih =>
    intro s0 s hl x
    rw [loadLines_cons] at hl
    cases l with
    | blank =>
      have h2 : loadLines h s0 rest = .ok s := hl
      rw [ih s0 s h2 x]
      simp [vertexIds, List.filterMap_cons]
    | otherLine =>
      have h2 : loadLines h s0 rest = .ok s := hl
      rw [ih s0 s h2 x]
      simp [vertexIds, List.filterMap_cons]
    | malformed msg =>
      rw [show processLine h s0 (Line.malformed msg) = Except.error msg from rfl,
        except_error_bind] at hl
      cases hl
    | vertexLine v =>
      have h2 : loadLines h (processVertex h s0 v) rest = .ok s := hl
      rw [ih _ s h2 x, hasVertex_processVertex]
      simp only [vertexIds, List.filterMap_cons, List.mem_cons]
      tauto
    | edgeLine e =>
      cases hp : processEdge s0 e with
      | error msg =>
        rw [show processLine h s0 (Line.edgeLine e) = processEdge s0 e from rfl, hp,
          except_error_bind] at hl
        cases hl
      | ok s1 =>
        rw [show processLine h s0 (Line.edgeLine e) = processEdge s0 e from rfl, hp,
          except_ok_bind] at hl
        rw [ih s1 s hl x, processEdge_ok_all hp]
        simp [vertexIds, List.filterMap_cons]

theorem foldlM_inVs_dangling {l : EdgeLabel} {outV : Id} {ids : List Id} {m : Id} :
    ∀ (inVs : List Id) (s : Store),
      (∀ x, (mapGet s.all x).isSome = true ↔ x ∈ ids) →
      outV ∈ ids →
      inVs.find? (fun i => decide (i ∉ ids)) = some m →
      List.foldlM (fun acc inV => doProcessEdge acc l outV inV) s inVs =
        .error ("No vertex found for Id " ++ toString m) := by
  intro inVs
  induction inVs with
  | nil => intro s _ _ hf; simp at hf
  | cons i rest ih =>
    intro s hpres hout hf
    rw [foldlM_edge_cons]
    by_cases hi : i ∈ ids
    · have hfind : rest.find? (fun i => decide (i ∉ ids)) = some m := by
        rwa [List.find?_cons_of_neg] at hf
        simp [hi]
      obtain ⟨s1, hs1⟩ := doProcessEdge_ok_of_present ((hpres outV).mpr hout) ((hpres i).mpr hi)
      rw [hs1, except_ok_bind]
      have hall : s1.all = s.all := doProcessEdge_ok_all hs1
      exact ih s1 (fun x => by rw [hall]; exact hpres x) hout hfind
    · have hmi : m = i := by
        rw [List.find?_cons_of_pos] at hf
        · exact (Option.some.inj hf).symm
        · simp [hi]
      have hiN : mapGet s.all i = none := by
        cases hgi : mapGet s.all i with
        | none => rfl
        | some w => exact absurd ((hpres i).mp (by simp [hgi])) hi
      obtain ⟨fv, hfv⟩ := Option.isSome_iff_exists.mp ((hpres outV).mpr hout)
      rw [doProcessEdge_err_inV hfv hiN, except_error_bind, hmi]

/-- An edge with a dangling endpoint fails with the error naming the first
missing endpoint, in validation order. -/
theorem processEdge_dangling {s : Store} {ids : List Id} {m : Id} (e : EdgeRec)
    (hpres : ∀ x, (mapGet s.all x).isSome = true ↔ x ∈ ids)
    (hm : firstMissing ids e = some m) :
    processEdge s e = .error ("No vertex found for Id " ++ toString m) := by
  have missingNone : ∀ y : Id, y ∉ ids → mapGet s.all y = none := by
    intro y hy
    cases hgy : mapGet s.all y with
    | none => rfl
    | some w => exact absurd ((hpres y).mp (by simp [hgy])) hy
  obtain ⟨label, outV, targets⟩ := e
  cases targets with
  | one inV =>
    simp only [firstMissing] at hm
    simp only [processEdge]
    split at hm
    · rename_i hout
      cases hm
      exact doProcessEdge_err_outV (missingNone _ hout)
    · rename_i hout
      split at hm
      · rename_i hin
        cases hm
        obtain ⟨fv, hfv⟩ :=
          Option.isSome_iff_exists.mp ((hpres _).mpr (not_not.mp hout))
        exact doProcessEdge_err_inV hfv (missingNone _ hin)
      · cases hm
  | many inVs =>
    simp only [processEdge]
    cases inVs with
    | nil => simp [firstMissing] at hm
    | cons i rest =>
      simp only [firstMissing] at hm
      split at hm
      · rename_i hout
        cases hm
        rw [foldlM_edge_cons, doProcessEdge_err_outV (missingNone _ hout), except_error_bind]
      · rename_i hout
        exact foldlM_inVs_dangling (i :: rest) s hpres (not_not.mp hout) hm

/-- C6 counterexample: the claim covers every edge one of whose endpoints
(outV, or any element of inVs) was never ingested, but an edge with an
empty inVs array performs no endpoint validation at all — `processEdge`
applies zero single-target applications — so a stream containing such an
edge with a dangling outV loads successfully instead of failing. -/
theorem c6_dangling_outV_empty_inVs_loads :
    isOkB (load hId c6CexLines) = true := by rfl

/-- C6 amended: an edge record with a CHECKED endpoint that no earlier
vertex line carried — outV on an edge that has at least one target, or any
element of inVs — makes `load` fail with no store produced, and when the
prefix before the edge itself loads cleanly, the error names the first
missing endpoint id in validation order (`firstMissing`); an edge with an
empty inVs array validates nothing and is applied as a no-op. -/
theorem c6_dangling_edge_fails (h : String → String) (pre post : List Line) (e : EdgeRec)
    (m : Id) (hm : firstMissing (vertexIds pre) e = some m) :
    isErrorB (load h (pre ++ .edgeLine e :: post)) = true ∧
    (∀ s, loadLines h emptyStore pre = .ok s →
      load h (pre ++ .edgeLine e :: post) =
        .error ("No vertex found for Id " ++ toString m)) := by
  have key : ∀ s, loadLines h emptyStore pre = .ok s →
      loadLines h emptyStore (pre ++ .edgeLine e :: post) =
        .error ("No vertex found for Id " ++ toString m) := by
    intro s hs
    rw [loadLines_append, hs, except_ok_bind, loadLines_cons]
    have hpres : ∀ x, (mapGet s.all x).isSome = true ↔ x ∈ vertexIds pre := by
      intro x
      rw [loadLines_hasVertex h pre emptyStore s hs x]
      simp [emptyStore, mapGet]
    rw [show processLine h s (Line.edgeLine e) = processEdge s e from rfl,
      processEdge_dangling e hpres hm, except_error_bind]
  constructor
  · rw [load_eq]
    cases hs : loadLines h emptyStore pre with
    | error msg =>
      rw [loadLines_append, hs, except_error_bind, except_error_bind]
      rfl
    | ok s =>
      rw [key s hs, except_error_bind]
      rfl
  · intro s hs
    rw [load_eq, key s hs, except_error_bind]

/-- C6 witness: an edge whose `inV` 99 was never ingested, after a single
project vertex 1. -/
theorem c6_dangling_edge_fails_witness :
    isErrorB (load hId [.vertexLine (.project 1), .edgeLine ⟨.contains, 1, .one 99⟩]) = true ∧
    load hId [.vertexLine (.project 1), .edgeLine ⟨.contains, 1, .one 99⟩] =
      .error "No vertex found for Id 99" := by
  have h := c6_dangling_edge_fails hId [.vertexLine (.project 1)] []
    ⟨.contains, 1, .one 99⟩ 99 (by decide)
  exact ⟨h.1, h.2 (processVertex hId emptyStore (.project 1)) rfl⟩

end Lsif
